import Mathlib

/-!
Shallow embedding of `src/app/page.tsx` (the "personal library" page).

The page is a single React component with:
 * a YouTube-id extractor `getYouTubeId`;
 * a static `fragments` dataset;
 * a persisted layout store (`layoutStore`) serialising a `LayoutData`
   value to JSON under the localStorage key `"library-layout"`;
 * drag handlers (`handlePointerDown`, `handleMove`, `handleEnd`),
   focus handlers (`handleClick`, `closeFocus`) and a pure style
   resolver `getStyle`.

State held in React `useState`/`useRef` hooks is modelled as one record
(`AppState`); each event handler becomes a function `AppState → AppState`.
JavaScript numbers used as pixel coordinates and z-indexes are modelled
as `Int`; CSS rotation/scale factors (exact decimal literals in the
source) are modelled as `ℚ`.
-/

/-- 2D point in viewport pixel coordinates (source type `Position`). -/
structure Pos where
  x : Int
  y : Int
deriving DecidableEq, Repr

/-- The four focus phases of the source's `focusPhase` state
(`"idle" | "opening" | "open" | "closing"`); the source's `"open"` is
spelled `opened` here because `open` is a Lean keyword. -/
inductive Phase where
  | idle
  | opening
  | opened
  | closing
deriving DecidableEq, Repr

/-- Gesture bookkeeping of the source's `dragStartRef`
(`{ x, y, elemX, elemY }`). -/
structure Gesture where
  x : Int
  y : Int
  elemX : Int
  elemY : Int
deriving DecidableEq, Repr

/-- Lookup in an association list, modelling JavaScript property read
`record[key]` on an object with numeric keys. -/
def lookupA {α : Type} (k : Nat) : List (Nat × α) → Option α
  | [] => none
  | (k', v) :: r => if k' = k then some v else lookupA k r

/-- Update/insert in an association list, modelling the JavaScript
object spread `\x7b ...record, [key]: value \x7d`: an existing key keeps
its place in property order, a new key is appended. -/
def insertA {α : Type} (k : Nat) (v : α) (l : List (Nat × α)) : List (Nat × α) :=
  if l.any (fun p => p.1 = k) then
    l.map (fun p => if p.1 = k then (k, v) else p)
  else
    l ++ [(k, v)]

/-- The persisted layout record (source type `LayoutData`):
position overrides, z-index overrides and the running `maxZ` counter.
The two `Record<number, …>` objects are modelled as association lists. -/
structure LayoutData where
  positions : List (Nat × Pos)
  zIndexes : List (Nat × Int)
  maxZ : Int
deriving DecidableEq, Repr

/-- The component's mutable state: the layout store's current data
(`positions`, `zIndexes` and the `maxZRef` counter, kept in sync by
`persistLayout`), the drag state (`draggingId`, `dragPos`,
`dragStartRef`, `didDragRef`) and the focus state (`focusedId`,
`focusOrigin`, `focusPhase`).  `pendingRaf` counts scheduled
`requestAnimationFrame` callbacks and `pendingClose` counts scheduled
450 ms `setTimeout` callbacks; neither is ever cancelled in the source. -/
structure AppState where
  positions : List (Nat × Pos)
  zIndexes : List (Nat × Int)
  maxZ : Int
  draggingId : Option Nat
  dragPos : Option Pos
  dragStart : Option Gesture
  didDrag : Bool
  focusedId : Option Nat
  focusOrigin : Option Pos
  phase : Phase
  pendingRaf : Nat
  pendingClose : Nat
deriving DecidableEq, Repr

/-- Initial component state given the layout loaded from storage:
`positions`/`zIndexes` default to empty and `maxZRef` to
`layout?.maxZ ?? 20`; no drag or focus is active. -/
def initState (saved : Option LayoutData) : AppState :=
  { positions := (saved.map (fun d => d.positions)).getD []
    zIndexes := (saved.map (fun d => d.zIndexes)).getD []
    maxZ := (saved.map (fun d => d.maxZ)).getD 20
    draggingId := none
    dragPos := none
    dragStart := none
    didDrag := false
    focusedId := none
    focusOrigin := none
    phase := Phase.idle
    pendingRaf := 0
    pendingClose := 0 }

/-- Source `handlePointerDown(id, e, rect)`: clears the did-drag flag,
records the gesture origin and the card's on-screen top-left, becomes
dragging with `dragPos` at the rect, and immediately bumps the card's
z-index to `maxZ + 1`, writing the layout through (`persistLayout`
leaves `positions` untouched here). -/
def handlePointerDown (id : Nat) (client rect : Pos) (s : AppState) : AppState :=
  let newMaxZ := s.maxZ + 1
  { s with
    didDrag := false
    dragStart := some { x := client.x, y := client.y, elemX := rect.x, elemY := rect.y }
    draggingId := some id
    dragPos := some rect
    zIndexes := insertA id newMaxZ s.zIndexes
    maxZ := newMaxZ }

/-- Source `handleMove(e)`: only installed while `draggingId` is not
null; computes the delta from the gesture origin, sets the did-drag flag
once the delta exceeds 3 px on either axis, and moves the live drag
position to the element origin plus the delta. -/
def handleMove (client : Pos) (s : AppState) : AppState :=
  if s.draggingId = none then s
  else
    match s.dragStart with
    | none => s
    | some g =>
      let dx := client.x - g.x
      let dy := client.y - g.y
      { s with
        didDrag := s.didDrag || (3 < |dx| || 3 < |dy|)
        dragPos := some { x := g.elemX + dx, y := g.elemY + dy } }

/-- Source `handleEnd()`: only installed while `draggingId` is not null;
if a live drag position exists it is committed into `positions` and the
card's z-index is bumped again to `maxZ + 1`; the drag bookkeeping is
always cleared. -/
def handleEnd (s : AppState) : AppState :=
  if s.draggingId = none then s
  else
    let s' :=
      match s.draggingId, s.dragPos with
      | some id, some p =>
        let newMaxZ := s.maxZ + 1
        { s with
          positions := insertA id p s.positions
          zIndexes := insertA id newMaxZ s.zIndexes
          maxZ := newMaxZ }
      | _, _ => s
    { s' with draggingId := none, dragPos := none, dragStart := none }

/-- Source `handleClick(id, rect)`: a click right after a drag only
resets the did-drag flag; a click on the focused card starts the closing
animation and schedules the 450 ms timer; any other click captures the
rect as the focus origin, focuses the card, enters `opening` and
schedules a `requestAnimationFrame` flip to `open`. -/
def handleClick (id : Nat) (rect : Pos) (s : AppState) : AppState :=
  if s.didDrag then { s with didDrag := false }
  else if s.focusedId = some id then
    { s with phase := Phase.closing, pendingClose := s.pendingClose + 1 }
  else
    { s with
      focusOrigin := some rect
      focusedId := some id
      phase := Phase.opening
      pendingRaf := s.pendingRaf + 1 }

/-- Source `closeFocus()` (overlay click): if some card is focused,
start the closing animation and schedule the 450 ms timer. -/
def closeFocus (s : AppState) : AppState :=
  if s.focusedId = none then s
  else { s with phase := Phase.closing, pendingClose := s.pendingClose + 1 }

/-- Firing of one scheduled `requestAnimationFrame(() => setFocusPhase("open"))`
callback. -/
def rafFire (s : AppState) : AppState :=
  if s.pendingRaf = 0 then s
  else { s with phase := Phase.opened, pendingRaf := s.pendingRaf - 1 }

/-- Firing of one scheduled 450 ms `setTimeout` callback: clears the
focused id and origin and returns to `idle`. -/
def timerFire (s : AppState) : AppState :=
  if s.pendingClose = 0 then s
  else
    { s with
      focusedId := none
      focusOrigin := none
      phase := Phase.idle
      pendingClose := s.pendingClose - 1 }

/-- The discrete input events of the component. -/
inductive Event where
  | pointerDown (id : Nat) (client rect : Pos)
  | move (client : Pos)
  | pointerEnd
  | click (id : Nat) (rect : Pos)
  | overlay
  | raf
  | timer

/-- One step of the component under an input event. -/
def step : Event → AppState → AppState
  | Event.pointerDown id client rect, s => handlePointerDown id client rect s
  | Event.move client, s => handleMove client s
  | Event.pointerEnd, s => handleEnd s
  | Event.click id rect, s => handleClick id rect s
  | Event.overlay, s => closeFocus s
  | Event.raf, s => rafFire s
  | Event.timer, s => timerFire s

/-- States reachable from some initial state under event steps. -/
inductive Reachable : AppState → Prop where
  | init (saved : Option LayoutData) : Reachable (initState saved)
  | step (e : Event) {s : AppState} : Reachable s → Reachable (step e s)

/-! ## The static fragment dataset

Content fields (`text`, `author`, `title`) are purely presentational and
not used by any layout or interaction logic, so they are omitted from
the embedding; all fields consumed by the handlers and the style
resolver are kept with their source values. -/

/-- A card descriptor (source type `Fragment`). -/
structure Fragment where
  id : Nat
  type : String
  url : Option String := none
  top : Option String := none
  left : Option String := none
  right : Option String := none
  width : String
  rotate : ℚ
  z : Int
  tape : Bool := false
  pin : Bool := false
  fontSize : Option String := none
deriving DecidableEq, Repr

/-- Source dataset entry `id 11` ("manila"). -/
def frag11 : Fragment :=
  { id := 11, type := "manila", top := some "2%", left := some "5%",
    width := "240px", rotate := 2.5, z := 6 }

/-- Source dataset entry `id 18` ("aged-paper"). -/
def frag18 : Fragment :=
  { id := 18, type := "aged-paper", top := some "3%", right := some "5%",
    width := "280px", rotate := -1.5, z := 6, tape := true }

/-- Source dataset entry `id 19` ("typewriter"). -/
def frag19 : Fragment :=
  { id := 19, type := "typewriter", top := some "16%", left := some "5%",
    width := "240px", rotate := 1.2, z := 5 }

/-- Source dataset entry `id 13` (the media card). -/
def frag13 : Fragment :=
  { id := 13, type := "media",
    url := some "https://www.youtube.com/watch?v=EUo0ncJX19A",
    top := some "18%", right := some "5%", width := "180px",
    rotate := -2.5, z := 10 }

/-- Source dataset entry `id 22` ("notebook"). -/
def frag22 : Fragment :=
  { id := 22, type := "notebook", top := some "32%", left := some "5%",
    width := "220px", rotate := 1.5, z := 6 }

/-- Source dataset entry `id 20` ("legal-pad"). -/
def frag20 : Fragment :=
  { id := 20, type := "legal-pad", top := some "44%", left := some "3%",
    width := "320px", rotate := 0.8, z := 7, tape := true,
    fontSize := some "1rem" }

/-- Source dataset entry `id 21` ("torn-scrap"). -/
def frag21 : Fragment :=
  { id := 21, type := "torn-scrap", top := some "46%", right := some "5%",
    width := "300px", rotate := -2, z := 8, pin := true }

/-- The `fragments` array, in source order. -/
def fragments : List Fragment :=
  [frag11, frag18, frag19, frag13, frag22, frag20, frag21]

/-! ## Style resolver -/

/-- A CSS length/position value: either a CSS string (`"50%"`,
`"auto"`, `"2%"`, …) or a pixel number. -/
inductive CssV where
  | str (s : String)
  | num (n : Int)
deriving DecidableEq, Repr

/-- A CSS transform, modelled structurally.  `centered r k` stands for
`translate(-50%, -50%) rotate(r deg)` with scale factor `k` (a `scale()`
entry is absent in the source string when `k = 1`); `plain r k` stands
for `rotate(r deg)` with scale factor `k` (likewise absent or written
`scale(1)` when `k = 1`). -/
inductive Transform where
  | centered (rot : ℚ) (scale : ℚ)
  | plain (rot : ℚ) (scale : ℚ)
deriving DecidableEq, Repr

/-- The subset of `React.CSSProperties` produced by `getStyle`; absent
properties are `none`. -/
structure Style where
  position : Option String := none
  top : Option CssV := none
  left : Option CssV := none
  right : Option CssV := none
  width : Option String := none
  zIndex : Int
  transform : Transform
  transition : Option String := none
  cursor : Option String := none
deriving DecidableEq, Repr

/-- The transition string used by the focused branches of `getStyle`. -/
def transitionStr : String :=
  "top 0.45s cubic-bezier(0.4, 0, 0.2, 1), left 0.45s cubic-bezier(0.4, 0, 0.2, 1), transform 0.45s cubic-bezier(0.4, 0, 0.2, 1), width 0.45s cubic-bezier(0.4, 0, 0.2, 1)"

/-- JavaScript `a || b` on numbers (`zIndexes[item.id] || item.z`):
an absent or zero (falsy) lookup falls back to the default. -/
def jsOrZ (a : Option Int) (b : Int) : Int :=
  match a with
  | some v => if v = 0 then b else v
  | none => b

/-- The per-render context read by `getStyle` from component state. -/
structure StyleCtx where
  zIndexes : List (Nat × Int)
  focusOrigin : Option Pos
  phase : Phase
  dragPos : Option Pos

/-- Source `getStyle(item, isFocused, isDragging, customPos)`, branch
for branch:
 1. focused with an origin and phase `open`: fixed at the viewport
    midpoint, no rotation, media cards widened to 480px (scale 1),
    other cards scaled 1.5, z-index 1001, smooth transition;
 2. focused with an origin, other phases: fixed at the captured origin,
    resting rotation, scale 1, z-index 1001, transition only when
    closing;
 3. dragging with a live position: fixed at it, rotation damped to 0.3
    of resting, scale 1.02, z-index 999, grabbing cursor;
 4. a persisted override: fixed at it, resting rotation, current z;
 5. default: the card's static anchor, resting rotation, current z. -/
def getStyle (ctx : StyleCtx) (item : Fragment) (isFocused isDragging : Bool)
    (customPos : Option Pos) : Style :=
  let currentZ := jsOrZ (lookupA item.id ctx.zIndexes) item.z
  let isMedia := item.type = "media"
  match isFocused, ctx.focusOrigin with
  | true, some origin =>
    if ctx.phase = Phase.opened then
      { position := some "fixed"
        top := some (CssV.str "50%")
        left := some (CssV.str "50%")
        right := some (CssV.str "auto")
        transform := if isMedia then Transform.centered 0 1 else Transform.centered 0 1.5
        zIndex := 1001
        width := some (if isMedia then "480px" else item.width)
        transition := some transitionStr }
    else
      { position := some "fixed"
        top := some (CssV.num origin.y)
        left := some (CssV.num origin.x)
        right := some (CssV.str "auto")
        transform := Transform.plain item.rotate 1
        zIndex := 1001
        width := some item.width
        transition := if ctx.phase = Phase.closing then some transitionStr else some "none" }
  | _, _ =>
    match isDragging, ctx.dragPos with
    | true, some p =>
      { position := some "fixed"
        top := some (CssV.num p.y)
        left := some (CssV.num p.x)
        right := some (CssV.str "auto")
        width := some item.width
        zIndex := 999
        transform := Transform.plain (item.rotate * 0.3) 1.02
        cursor := some "grabbing" }
    | _, _ =>
      match customPos with
      | some cp =>
        { position := some "fixed"
          top := some (CssV.num cp.y)
          left := some (CssV.num cp.x)
          right := some (CssV.str "auto")
          width := some item.width
          zIndex := currentZ
          transform := Transform.plain item.rotate 1 }
      | none =>
        { top := (item.top).map CssV.str
          left := (item.left).map CssV.str
          right := (item.right).map CssV.str
          width := some item.width
          zIndex := currentZ
          transform := Transform.plain item.rotate 1 }

/-! ## YouTube id extraction

`getYouTubeId` matches the url against two regular expressions:

  `(?:youtube\.com\/watch\?v=|youtu\.be\/|youtube\.com\/embed\/)([^&\n?#]+)` and
  `youtube\.com\/shorts\/([^&\n?#]+)`.

Both have the shape: one of a list of literal alternatives followed by
a nonempty capture of characters other than `&`, newline, `?`, `#`.
JavaScript regex search is modelled faithfully: the match position
advances one character at a time; at each position the alternatives are
tried left to right, and an alternative whose capture would be empty
fails, backtracking to the next alternative. -/

/-- A character ending the `[^&\n?#]+` capture group. -/
def stopChar (c : Char) : Bool :=
  c = '&' || c = '\n' || c = '?' || c = '#'

/-- Try the literal alternatives in order at the current position. -/
def tryAlts (alts : List (List Char)) (l : List Char) : Option (List Char)
  := match alts with
  | [] => none
  | a :: rest =>
    if a.isPrefixOf l then
      let cap := (l.drop a.length).takeWhile (fun c => !stopChar c)
      if cap.isEmpty then tryAlts rest l else some cap
    else tryAlts rest l

/-- Scan the input left to right for the first position where one of the
alternatives (followed by a nonempty capture) matches. -/
def scanFor (alts : List (List Char)) : List Char → Option (List Char)
  | [] => none
  | c :: rest =>
    match tryAlts alts (c :: rest) with
    | some cap => some cap
    | none => scanFor alts rest

/-- Alternatives of the first source pattern. -/
def pat1Alts : List (List Char) :=
  [("youtube.com/watch?v=").data, ("youtu.be/").data, ("youtube.com/embed/").data]

/-- Alternatives of the second source pattern (`/shorts/`). -/
def pat2Alts : List (List Char) :=
  [("youtube.com/shorts/").data]

/-- Source `getYouTubeId(url)`: first match of the first pattern, else
first match of the second, else null. -/
def getYouTubeId (url : String) : Option String :=
  match scanFor pat1Alts url.data with
  | some cap => some (String.mk cap)
  | none =>
    match scanFor pat2Alts url.data with
    | some cap => some (String.mk cap)
    | none => none

/-! ## The persisted layout store

`layoutStore.save` runs `localStorage.setItem("library-layout",
JSON.stringify(newData))` inside a `try`, and `load` (the IIFE body)
runs `JSON.parse(localStorage.getItem("library-layout") || "null")`.
The JSON values actually exchanged are built from `null`, integers,
strings and objects, so the JSON model covers exactly those; `parse` is
a total recursive-descent parser over that grammar (the source's
`JSON.parse` restricted to it), written with explicit fuel. -/

mutual
/-- A JSON value (the subset exchanged by the layout store). -/
inductive Json where
  | null : Json
  | num : Int → Json
  | str : String → Json
  | obj : Fields → Json

/-- The field list of a JSON object, in property order. -/
inductive Fields where
  | nil : Fields
  | cons : String → Json → Fields → Fields
end

/-- The decimal digit character of `d` (for `d < 10`). -/
def digitChar (d : Nat) : Char :=
  if d = 0 then '0' else if d = 1 then '1' else if d = 2 then '2'
  else if d = 3 then '3' else if d = 4 then '4' else if d = 5 then '5'
  else if d = 6 then '6' else if d = 7 then '7' else if d = 8 then '8'
  else '9'

/-- Decimal digits of a natural number, most significant first
(fuelled so that the definition is structural and computes; `n` itself
is always enough fuel since `n / 10 < n`). -/
def natCharsAux : Nat → Nat → List Char
  | 0, n => [digitChar n]
  | fuel + 1, n =>
    if n < 10 then [digitChar n]
    else natCharsAux fuel (n / 10) ++ [digitChar (n % 10)]

/-- Decimal digits of a natural number, most significant first. -/
def natChars (n : Nat) : List Char := natCharsAux n n

/-- Value of a decimal digit string, accumulator style (the inverse of
`natChars`). -/
def digitsToNat (acc : Nat) : List Char → Nat
  | [] => acc
  | c :: r => digitsToNat (acc * 10 + (c.toNat - 48)) r

/-- Decimal representation of an integer (as `JSON.stringify` prints
the store's numbers). -/
def intChars (n : Int) : List Char :=
  if n < 0 then '-' :: natChars n.natAbs else natChars n.toNat

mutual
/-- `JSON.stringify` on the modelled subset (compact form, as the
source produces: no whitespace). -/
def jstr : Json → List Char
  | Json.null => ("null").data
  | Json.num n => intChars n
  | Json.str s => '"' :: s.data ++ ['"']
  | Json.obj fs => '\x7b' :: (fieldsStr fs ++ ['\x7d'])
termination_by structural j => j

/-- The comma-separated `"key":value` list inside an object. -/
def fieldsStr : Fields → List Char
  | Fields.nil => []
  | Fields.cons k v Fields.nil => '"' :: k.data ++ '"' :: ':' :: jstr v
  | Fields.cons k v (Fields.cons k2 v2 fs) =>
      '"' :: k.data ++ '"' :: ':' :: jstr v ++ ',' :: fieldsStr (Fields.cons k2 v2 fs)
termination_by structural f => f
end

/-- The string-body predicate: everything up to the closing quote. -/
def notQuote (c : Char) : Bool := !(c == '"')

mutual
/-- Fuelled recursive-descent parser for one JSON value; returns the
value and the unconsumed rest. -/
def parseJ : Nat → List Char → Option (Json × List Char)
  | 0, _ => none
  | _ + 1, [] => none
  | fuel + 1, c :: r =>
    if c = 'n' then
      match r with
      | 'u' :: 'l' :: 'l' :: r' => some (Json.null, r')
      | _ => none
    else if c = '"' then
      let s := r.takeWhile notQuote
      match r.drop s.length with
      | '"' :: r' => some (Json.str (String.mk s), r')
      | _ => none
    else if c = '\x7b' then
      if r.head? = some '\x7d' then some (Json.obj Fields.nil, r.tail)
      else
        match parseFields fuel r with
        | some (fs, '\x7d' :: r') => some (Json.obj fs, r')
        | _ => none
    else if c = '-' then
      let ds := r.takeWhile Char.isDigit
      if ds = [] then none
      else some (Json.num (-(digitsToNat 0 ds : Int)), r.drop ds.length)
    else if c.isDigit then
      let ds := (c :: r).takeWhile Char.isDigit
      some (Json.num (digitsToNat 0 ds : Int), (c :: r).drop ds.length)
    else none
termination_by structural fuel _ => fuel

/-- Fuelled parser for a nonempty `"key":value` list; stops before the
character following the last field. -/
def parseFields : Nat → List Char → Option (Fields × List Char)
  | 0, _ => none
  | fuel + 1, '"' :: r =>
    let k := r.takeWhile notQuote
    (match r.drop k.length with
     | '"' :: ':' :: r' =>
       match parseJ fuel r' with
       | some (v, ',' :: r2) =>
         (match parseFields fuel r2 with
          | some (fs, r3) => some (Fields.cons (String.mk k) v fs, r3)
          | none => none)
       | some (v, r2) => some (Fields.cons (String.mk k) v Fields.nil, r2)
       | none => none
     | _ => none)
  | _ + 1, _ => none
termination_by structural fuel _ => fuel
end

/-- `JSON.parse`: parse a whole string (the trailing rest must be
empty). -/
def jparse (s : String) : Option Json :=
  match parseJ s.data.length s.data with
  | some (j, []) => some j
  | _ => none

/-- `JSON.stringify` as a string. -/
def strOf (j : Json) : String := String.mk (jstr j)

mutual
/-- Well-formed for round-tripping: every string is quote-free (the
store only ever serialises digit keys, fixed field names and numbers,
so `JSON.stringify` never needs escaping on them). -/
def WFj : Json → Prop
  | Json.null => True
  | Json.num _ => True
  | Json.str s => ∀ c ∈ s.data, c ≠ '"'
  | Json.obj fs => WFf fs
termination_by structural j => j

/-- Well-formedness of a field list. -/
def WFf : Fields → Prop
  | Fields.nil => True
  | Fields.cons k v fs => (∀ c ∈ k.data, c ≠ '"') ∧ WFj v ∧ WFf fs
termination_by structural f => f
end

mutual
/-- Nesting depth of a JSON value (a fuel bound for the parser). -/
def jdepth : Json → Nat
  | Json.obj fs => fdepth fs + 1
  | _ => 1
termination_by structural j => j

/-- Nesting depth of a field list. -/
def fdepth : Fields → Nat
  | Fields.nil => 0
  | Fields.cons _ v fs => max (jdepth v) (fdepth fs) + 1
termination_by structural f => f
end

/-- The rest of the input does not begin with a decimal digit (so a
number match cannot leak into it). -/
def numSafe (l : List Char) : Prop :=
  ∀ c, l.head? = some c → c.isDigit = false

/-- Encoding of a `Position` as JSON. -/
def encPos (p : Pos) : Json :=
  Json.obj (Fields.cons "x" (Json.num p.x) (Fields.cons "y" (Json.num p.y) Fields.nil))

/-- Encoding of a numerically-keyed record as a JSON object: keys become
their decimal strings (as JavaScript object keys are). -/
def encNatMap {α : Type} (f : α → Json) : List (Nat × α) → Fields
  | [] => Fields.nil
  | (k, v) :: r => Fields.cons (String.mk (natChars k)) (f v) (encNatMap f r)

/-- The JSON value `JSON.stringify` receives for a `LayoutData`. -/
def encodeLayout (d : LayoutData) : Json :=
  Json.obj
    (Fields.cons "positions" (Json.obj (encNatMap encPos d.positions))
      (Fields.cons "zIndexes" (Json.obj (encNatMap (fun z => Json.num z) d.zIndexes))
        (Fields.cons "maxZ" (Json.num d.maxZ) Fields.nil)))

/-- Decimal string back to a natural number key. -/
def decNatKey (s : String) : Option Nat :=
  if s.data ≠ [] ∧ s.data.all Char.isDigit then some (digitsToNat 0 s.data) else none

/-- Decoding of a `Position` from JSON. -/
def decPos : Json → Option Pos
  | Json.obj (Fields.cons "x" (Json.num x) (Fields.cons "y" (Json.num y) Fields.nil)) =>
    some { x := x, y := y }
  | _ => none

/-- Decoding of a JSON number. -/
def decInt : Json → Option Int
  | Json.num n => some n
  | _ => none

/-- Decoding of a numerically-keyed record from a JSON field list. -/
def decNatMap {α : Type} (f : Json → Option α) : Fields → Option (List (Nat × α))
  | Fields.nil => some []
  | Fields.cons k v r =>
    match decNatKey k, f v, decNatMap f r with
    | some n, some a, some l => some ((n, a) :: l)
    | _, _, _ => none

/-- Reading a `LayoutData` back out of the parsed JSON value (the
in-memory shape the component consumes after `JSON.parse`). -/
def decodeLayout : Json → Option LayoutData
  | Json.obj (Fields.cons "positions" (Json.obj ps)
      (Fields.cons "zIndexes" (Json.obj zs)
        (Fields.cons "maxZ" (Json.num mz) Fields.nil))) =>
    match decNatMap decPos ps, decNatMap decInt zs with
    | some p, some z => some { positions := p, zIndexes := z, maxZ := mz }
    | _, _ => none
  | _ => none

/-! ## The layout store's save/load, with explicit storage effects -/

/-- The state of the layout store: the content of the localStorage key
`"library-layout"`, the in-memory `data`, the `isLoaded` flag and the
set of subscribers (modelled as a list of subscriber ids; the source
keeps them in a `Set`, so they are unique). -/
structure StoreState where
  stored : Option String
  data : Option LayoutData
  isLoaded : Bool
  listeners : List Nat
deriving DecidableEq, Repr

/-- `localStorage.setItem` on the store's key: `writeOk` says whether
the environment lets the write succeed; a failed write (quota exceeded,
storage disabled) throws, modelled as `Except.error`. -/
def setItem (writeOk : Bool) (v : String) : Except Unit (Option String) :=
  if writeOk then Except.ok (some v) else Except.error ()

/-- The body of `layoutStore.save` before the `catch`: write the
serialised layout, update the in-memory data and snapshot, then notify
every subscriber (the returned list is the subscribers notified, in
order). -/
def saveBody (writeOk : Bool) (s : StoreState) (newData : LayoutData) :
    Except Unit (StoreState × List Nat) :=
  match setItem writeOk (strOf (encodeLayout newData)) with
  | Except.ok st => Except.ok ({ s with stored := st, data := some newData }, s.listeners)
  | Except.error e => Except.error e

/-- `layoutStore.save` as seen by its caller: the empty `catch`
swallows any storage failure, leaving the state untouched and
notifying nobody. -/
def save (writeOk : Bool) (s : StoreState) (newData : LayoutData) :
    Except Unit (StoreState × List Nat) :=
  match saveBody writeOk s newData with
  | Except.ok r => Except.ok r
  | Except.error _ => Except.ok (s, [])

/-- The store's load (the IIFE body):
`JSON.parse(localStorage.getItem("library-layout") || "null")`; a
parse failure is caught, leaving the data `null` (`none`). -/
def load (stored : Option String) : Option Json :=
  jparse (stored.getD "null")

/-- The in-memory `LayoutData` a fresh process obtains from storage:
the parsed JSON value read back as a layout record (the shape the
component consumes). -/
def loadData (stored : Option String) : Option LayoutData :=
  (load stored).bind decodeLayout

/-! ## The layout invariant (claim C6) -/

/-- The card ids of the static dataset. -/
def fragIds : List Nat := fragments.map (fun f => f.id)

/-- The `LayoutState` invariant: every key of either mapping is a card
id of the dataset, and `maxZ` dominates every stored z-index. -/
def LayoutInv (s : AppState) : Prop :=
  (∀ p ∈ s.positions, p.1 ∈ fragIds) ∧
  (∀ q ∈ s.zIndexes, q.1 ∈ fragIds ∧ q.2 ≤ s.maxZ)

/-! ## Arithmetic and list facts about the decimal printer/parser -/

/-- The fuel of `natCharsAux` is irrelevant once it is at least `n`. -/
theorem natCharsAux_irrel : ∀ fuel1 fuel2 n, n ≤ fuel1 → n ≤ fuel2 →
    natCharsAux fuel1 n = natCharsAux fuel2 n := by
  intro fuel1
  induction fuel1 with
  | zero =>
    intro fuel2 n h1 _
    cases fuel2 with
    | zero => rfl
    | succ f2 =>
      have hn : n = 0 := Nat.le_zero.mp h1
      subst hn
      simp [natCharsAux]
  | succ f1 ih =>
    intro fuel2 n h1 h2
    cases fuel2 with
    | zero =>
      have hn : n = 0 := Nat.le_zero.mp h2
      subst hn
      simp [natCharsAux]
    | succ f2 =>
      by_cases h : n < 10
      · simp [natCharsAux, h]
      · have hdiv : n / 10 < n := Nat.div_lt_self (by omega) (by omega)
        simp only [natCharsAux, if_neg h]
        rw [ih f2 (n / 10) (by omega) (by omega)]

/-- Unfolding equation for `natChars`. -/
theorem natChars_eq (n : Nat) :
    natChars n = if n < 10 then [digitChar n] else natChars (n / 10) ++ [digitChar (n % 10)] := by
  by_cases h : n < 10
  · cases n with
    | zero => simp [natChars, natCharsAux, h]
    | succ m => simp [natChars, natCharsAux, h]
  · have hdiv : n / 10 < n := Nat.div_lt_self (by omega) (by omega)
    cases n with
    | zero => omega
    | succ m =>
      show natCharsAux (m + 1) (m + 1) = _
      simp only [natCharsAux, if_neg h]
      rw [natCharsAux_irrel m ((m + 1) / 10) ((m + 1) / 10) (by omega) (le_refl _)]
      rfl

/-- `natChars` never produces the empty list. -/
theorem natChars_ne_nil (n : Nat) : natChars n ≠ [] := by
  rw [natChars_eq]
  split
  · simp
  · simp

/-- `digitChar` always yields a digit character (the fallback is '9'). -/
theorem digitChar_isDigit (d : Nat) : (digitChar d).isDigit = true := by
  unfold digitChar
  split_ifs <;> rfl

/-- `digitChar` inverts to its argument below 10. -/
theorem digitChar_val {d : Nat} (h : d < 10) : (digitChar d).toNat - 48 = d := by
  unfold digitChar
  split_ifs with h0 h1 h2 h3 h4 h5 h6 h7 h8
  · subst h0; rfl
  · subst h1; rfl
  · subst h2; rfl
  · subst h3; rfl
  · subst h4; rfl
  · subst h5; rfl
  · subst h6; rfl
  · subst h7; rfl
  · subst h8; rfl
  · have h9 : d = 9 := by omega
    subst h9; rfl

/-- Every character `natChars` produces is a decimal digit. -/
theorem natChars_digits (n : Nat) : ∀ c ∈ natChars n, c.isDigit = true := by
  induction n using Nat.strong_induction_on with
  | _ n ih =>
    rw [natChars_eq]
    by_cases h : n < 10
    · simp only [if_pos h, List.mem_singleton]
      rintro c rfl
      exact digitChar_isDigit n
    · have hdiv : n / 10 < n := Nat.div_lt_self (by omega) (by omega)
      simp only [if_neg h, List.mem_append, List.mem_singleton]
      rintro c (hc | rfl)
      · exact ih (n / 10) hdiv c hc
      · exact digitChar_isDigit (n % 10)

/-- Accumulator-splitting for the digit reader. -/
theorem digitsToNat_append (l m : List Char) : ∀ a,
    digitsToNat a (l ++ m) = digitsToNat (digitsToNat a l) m := by
  induction l with
  | nil => intro a; rfl
  | cons c r ih => intro a; exact ih (a * 10 + (c.toNat - 48))

/-- Reading one digit. -/
theorem digitsToNat_single (x : Nat) (c : Char) :
    digitsToNat x [c] = x * 10 + (c.toNat - 48) := rfl

/-- Reading back the digits of `n` with accumulator `a`. -/
theorem digitsToNat_natChars (n : Nat) : ∀ a,
    digitsToNat a (natChars n) = a * 10 ^ (natChars n).length + n := by
  induction n using Nat.strong_induction_on with
  | _ n ih =>
    intro a
    rw [natChars_eq]
    by_cases h : n < 10
    · rw [if_pos h, digitsToNat_single, List.length_singleton, pow_one]
      have := digitChar_val h
      omega
    · have hdiv : n / 10 < n := Nat.div_lt_self (by omega) (by omega)
      have hm : n % 10 < 10 := Nat.mod_lt _ (by omega)
      have hd : (digitChar (n % 10)).toNat - 48 = n % 10 := digitChar_val hm
      rw [if_neg h, digitsToNat_append, digitsToNat_single, ih (n / 10) hdiv a, hd,
        List.length_append, List.length_singleton, pow_succ]
      have hexp : (a * 10 ^ (natChars (n / 10)).length + n / 10) * 10 + n % 10
          = a * (10 ^ (natChars (n / 10)).length * 10) + (n / 10 * 10 + n % 10) := by ring
      rw [hexp]
      omega

/-- Reading back the digits of `n`. -/
theorem digitsToNat_natChars0 (n : Nat) : digitsToNat 0 (natChars n) = n := by
  simpa using digitsToNat_natChars n 0

/-- A digit character is none of the characters the parser dispatches
on first. -/
theorem isDigit_ne {c : Char} (h : c.isDigit = true) :
    c ≠ 'n' ∧ c ≠ '"' ∧ c ≠ '\x7b' ∧ c ≠ '-' ∧ c ≠ ',' ∧ c ≠ '\x7d' := by
  refine ⟨?_, ?_, ?_, ?_, ?_, ?_⟩ <;> rintro rfl <;> exact absurd h (by decide)

/-- `takeWhile` over an all-satisfying prefix followed by a failing
head consumes exactly the prefix. -/
theorem takeWhile_all_append (p : Char → Bool) :
    ∀ (l r : List Char), (∀ c ∈ l, p c = true) →
      (∀ c, r.head? = some c → p c = false) →
      (l ++ r).takeWhile p = l := by
  intro l
  induction l with
  | nil =>
    intro r _ hr
    cases r with
    | nil => rfl
    | cons c r' => simp [List.takeWhile, hr c rfl]
  | cons c l' ih =>
    intro r hl hr
    simp only [List.cons_append, List.takeWhile, hl c (List.mem_cons_self c l')]
    exact congrArg (List.cons c) (ih r (fun d hd => hl d (List.mem_cons_of_mem _ hd)) hr)

/-- Dropping the length of the left part of an append. -/
theorem drop_len_append (l r : List Char) : (l ++ r).drop l.length = r := by
  induction l with
  | nil => rfl
  | cons c l' ih =>
    simp only [List.length_cons, List.cons_append, List.drop_succ_cons]
    exact ih

/-- `jdepth` is positive. -/
theorem jdepth_pos (j : Json) : 1 ≤ jdepth j := by
  cases j <;> simp [jdepth]

/-- Rebuilding a string from its characters. -/
theorem stringMk_data (s : String) : String.mk s.data = s := rfl

/-- `intChars` never produces the empty list. -/
theorem intChars_ne_nil (n : Int) : intChars n ≠ [] := by
  unfold intChars
  split
  · simp
  · exact natChars_ne_nil _

/-- A nonempty field list prints starting with a quote. -/
theorem fieldsStr_cons_head (k : String) (v : Json) (fs : Fields) :
    ∃ t, fieldsStr (Fields.cons k v fs) = '"' :: t := by
  cases fs <;> exact ⟨_, rfl⟩

/-- The key characters satisfy `notQuote`. -/
theorem notQuote_of_ne {c : Char} (h : c ≠ '"') : notQuote c = true := by
  simp [notQuote, h]

theorem parse_roundtrip : ∀ fuel : Nat,
    (∀ j rest, WFj j → jdepth j ≤ fuel → numSafe rest →
      parseJ fuel (jstr j ++ rest) = some (j, rest)) ∧
    (∀ k v fs rest, WFf (Fields.cons k v fs) → fdepth (Fields.cons k v fs) ≤ fuel →
      parseFields fuel (fieldsStr (Fields.cons k v fs) ++ '\x7d' :: rest)
        = some (Fields.cons k v fs, '\x7d' :: rest)) := by
  intro fuel
  induction fuel with
  | zero =>
    constructor
    · intro j rest _ hd _
      exact absurd hd (by have := jdepth_pos j; omega)
    · intro k v fs rest _ hd
      exact absurd hd (by simp [fdepth])
  | succ fuel ih =>
    obtain ⟨ihJ, ihF⟩ := ih
    constructor
    · intro j rest hwf hd hsafe
      cases j with
      | null => rfl
      | num m =>
        by_cases hm : m < 0
        · have hj : jstr (Json.num m) = '-' :: natChars m.natAbs := by
            show intChars m = _
            unfold intChars
            rw [if_pos hm]
          rw [hj, List.cons_append]
          simp only [parseJ, if_true]
          rw [takeWhile_all_append Char.isDigit _ _ (natChars_digits _) hsafe,
            if_neg (natChars_ne_nil _), drop_len_append, digitsToNat_natChars0]
          have : (-(m.natAbs : Int)) = m := by omega
          rw [this]
          rfl
        · have hj : jstr (Json.num m) = natChars m.toNat := by
            show intChars m = _
            unfold intChars
            rw [if_neg hm]
          rw [hj]
          obtain ⟨c0, l0, hnat⟩ := List.exists_cons_of_ne_nil (natChars_ne_nil m.toNat)
          have hc0 : c0.isDigit = true :=
            natChars_digits m.toNat c0 (by rw [hnat]; exact List.mem_cons_self _ _)
          obtain ⟨hn1, hn2, hn3, hn4, _, _⟩ := isDigit_ne hc0
          rw [hnat, List.cons_append]
          simp only [parseJ]
          rw [if_neg hn1, if_neg hn2, if_neg hn3, if_neg hn4, if_pos hc0,
            ← List.cons_append, ← hnat,
            takeWhile_all_append Char.isDigit _ _ (natChars_digits _) hsafe,
            drop_len_append, digitsToNat_natChars0]
          have : ((m.toNat : Int)) = m := by omega
          rw [this]
      | str s =>
        have hq : ∀ c ∈ s.data, c ≠ '"' := hwf
        have hshape : jstr (Json.str s) ++ rest = '"' :: (s.data ++ ('"' :: rest)) := by
          show ('"' :: s.data ++ ['"']) ++ rest = _
          simp
        rw [hshape]
        simp only [parseJ]
        rw [takeWhile_all_append notQuote _ _ (fun c hc => notQuote_of_ne (hq c hc))
              (fun c hc => by simp at hc; subst hc; rfl),
          drop_len_append]
        rfl
      | obj fs =>
        cases fs with
        | nil => rfl
        | cons k v fs' =>
          have hfd : fdepth (Fields.cons k v fs') ≤ fuel := by
            have h1 : jdepth (Json.obj (Fields.cons k v fs')) = fdepth (Fields.cons k v fs') + 1 := rfl
            omega
          have hshape : jstr (Json.obj (Fields.cons k v fs')) ++ rest
              = '\x7b' :: (fieldsStr (Fields.cons k v fs') ++ ('\x7d' :: rest)) := by
            show ('\x7b' :: (fieldsStr _ ++ ['\x7d'])) ++ rest = _
            simp
          obtain ⟨t, ht⟩ := fieldsStr_cons_head k v fs'
          rw [hshape]
          simp only [parseJ]
          rw [if_neg (show ¬((fieldsStr (Fields.cons k v fs') ++ ('\x7d' :: rest)).head?
                = some '\x7d') by rw [ht]; simp),
            ihF k v fs' rest hwf hfd]
          rfl
    · intro k v fs rest hwf hd
      obtain ⟨hk, hv, hfs⟩ := hwf
      cases fs with
      | nil =>
        have hdv : jdepth v ≤ fuel := by
          simp only [fdepth] at hd
          omega
        have hshape : fieldsStr (Fields.cons k v Fields.nil) ++ '\x7d' :: rest
            = '"' :: (k.data ++ ('"' :: ':' :: (jstr v ++ '\x7d' :: rest))) := by
          show ('"' :: k.data ++ '"' :: ':' :: jstr v) ++ '\x7d' :: rest = _
          simp
        rw [hshape]
        simp only [parseFields]
        rw [takeWhile_all_append notQuote _ _ (fun c hc => notQuote_of_ne (hk c hc))
              (fun c hc => by simp at hc; subst hc; rfl),
          drop_len_append]
        simp only []
        rw [ihJ v ('\x7d' :: rest) hv hdv (fun c hc => by simp at hc; subst hc; rfl)]
        rfl
      | cons k2 v2 fs2 =>
        have hdv : jdepth v ≤ fuel := by
          simp only [fdepth] at hd
          omega
        have hdf : fdepth (Fields.cons k2 v2 fs2) ≤ fuel := by
          simp only [fdepth] at hd ⊢
          omega
        have hshape : fieldsStr (Fields.cons k v (Fields.cons k2 v2 fs2)) ++ '\x7d' :: rest
            = '"' :: (k.data ++ ('"' :: ':' :: (jstr v
                ++ ',' :: (fieldsStr (Fields.cons k2 v2 fs2) ++ '\x7d' :: rest)))) := by
          show ('"' :: k.data ++ '"' :: ':' :: jstr v
              ++ ',' :: fieldsStr (Fields.cons k2 v2 fs2)) ++ '\x7d' :: rest = _
          simp
        rw [hshape]
        simp only [parseFields]
        rw [takeWhile_all_append notQuote _ _ (fun c hc => notQuote_of_ne (hk c hc))
              (fun c hc => by simp at hc; subst hc; rfl),
          drop_len_append]
        simp only []
        rw [ihJ v (',' :: (fieldsStr (Fields.cons k2 v2 fs2) ++ '\x7d' :: rest)) hv hdv
          (fun c hc => by simp at hc; subst hc; rfl)]
        simp only []
        rw [ihF k2 v2 fs2 rest hfs hdf]

mutual
/-- The printed form is at least as long as the nesting depth (so input
length is always enough parser fuel for printer outputs). -/
theorem jdepth_le_len : ∀ j : Json, jdepth j ≤ (jstr j).length
  | Json.null => by simp [jdepth, jstr]
  | Json.num n => by
    have h := intChars_ne_nil n
    have : 0 < (intChars n).length := List.length_pos.mpr h
    simp only [jdepth, jstr]
    omega
  | Json.str s => by simp [jdepth, jstr]
  | Json.obj fs => by
    have h := fdepth_le_len fs
    simp only [jdepth, jstr, List.length_cons, List.length_append, List.length_singleton]
    omega
termination_by structural j => j

/-- Depth/length bound for field lists. -/
theorem fdepth_le_len : ∀ fs : Fields, fdepth fs ≤ (fieldsStr fs).length + 1
  | Fields.nil => by simp [fdepth]
  | Fields.cons k v fs => by
    have h1 := jdepth_le_len v
    have h2 := fdepth_le_len fs
    cases fs with
    | nil =>
      simp only [fdepth, fieldsStr, List.length_cons, List.length_append]
      simp only [fdepth] at h2 ⊢
      omega
    | cons k2 v2 fs2 =>
      simp only [fdepth, fieldsStr, List.length_cons, List.length_append] at h2 ⊢
      omega
termination_by structural f => f
end

/-- The encoder only produces quote-free strings below a map. -/
theorem WFf_encNatMap {α : Type} (f : α → Json) (hf : ∀ a, WFj (f a)) :
    ∀ l : List (Nat × α), WFf (encNatMap f l) := by
  intro l
  induction l with
  | nil => exact trivial
  | cons p r ih =>
    refine ⟨?_, hf p.2, ?_⟩
    · intro c hc
      have hdig : c.isDigit = true := natChars_digits p.1 c hc
      exact (isDigit_ne hdig).2.1
    · cases p
      exact ih

/-- Encoded positions are well formed. -/
theorem WFj_encPos (p : Pos) : WFj (encPos p) :=
  ⟨by decide, trivial, by decide, trivial, trivial⟩

/-- The encoded layout is well formed. -/
theorem WFj_encodeLayout (d : LayoutData) : WFj (encodeLayout d) :=
  ⟨by decide, WFf_encNatMap encPos WFj_encPos d.positions,
   by decide, WFf_encNatMap (fun z => Json.num z) (fun _ => trivial) d.zIndexes,
   by decide, trivial, trivial⟩

/-- Decoding a printed decimal key. -/
theorem decNatKey_natChars (k : Nat) : decNatKey (String.mk (natChars k)) = some k := by
  unfold decNatKey
  rw [if_pos ⟨natChars_ne_nil k, List.all_eq_true.mpr (fun c hc => natChars_digits k c hc)⟩]
  rw [digitsToNat_natChars0]

/-- Decoding an encoded numeric map. -/
theorem decNatMap_encNatMap {α : Type} (f : α → Json) (g : Json → Option α)
    (h : ∀ a, g (f a) = some a) :
    ∀ l : List (Nat × α), decNatMap g (encNatMap f l) = some l := by
  intro l
  induction l with
  | nil => rfl
  | cons p r ih =>
    cases p with
    | mk k v =>
      simp only [encNatMap, decNatMap, decNatKey_natChars, h v, ih]

/-- Decoding an encoded position. -/
theorem decPos_encPos (p : Pos) : decPos (encPos p) = some p := rfl

/-- Decode inverts encode on layouts. -/
theorem decodeLayout_encodeLayout (d : LayoutData) :
    decodeLayout (encodeLayout d) = some d := by
  show decodeLayout (Json.obj _) = some d
  simp only [encodeLayout, decodeLayout,
    decNatMap_encNatMap encPos decPos decPos_encPos d.positions,
    decNatMap_encNatMap (fun z => Json.num z) decInt (fun _ => rfl) d.zIndexes]

/-- Parsing inverts printing on well-formed values. -/
theorem jparse_strOf {j : Json} (hwf : WFj j) : jparse (strOf j) = some j := by
  have hlen : jdepth j ≤ (jstr j).length := jdepth_le_len j
  have hrt := (parse_roundtrip ((jstr j)).length).1 j [] hwf hlen
    (fun c hc => by simp at hc)
  rw [List.append_nil] at hrt
  show (match parseJ (jstr j).length (jstr j) with
        | some (j, []) => some j
        | _ => none) = some j
  rw [hrt]

/-- In every reachable state, the `idle` phase has no focused card and
no focus origin (they are always cleared together). -/
theorem reachable_idle_clear {s : AppState} (h : Reachable s) :
    s.phase = Phase.idle → s.focusedId = none ∧ s.focusOrigin = none := by
  induction h with
  | init saved => intro _; exact ⟨rfl, rfl⟩
  | step e h ih =>
    cases e with
    | pointerDown id client rect => simpa [step, handlePointerDown] using ih
    | move client =>
      simp only [step, handleMove]
      split
      · exact ih
      · split
        · exact ih
        · simpa using ih
    | pointerEnd =>
      simp only [step, handleEnd]
      split
      · exact ih
      · split <;> simpa using ih
    | click id rect =>
      simp only [step, handleClick]
      split
      · simpa using ih
      · split <;> simp
    | overlay =>
      simp only [step, closeFocus]
      split
      · exact ih
      · simp
    | raf =>
      simp only [step, rafFire]
      split
      · exact ih
      · simp
    | timer =>
      simp only [step, timerFire]
      split
      · exact ih
      · simp

/-! ## Association-list lemmas -/

/-- Members of `insertA` are the new pair or old members. -/
theorem insertA_mem {α : Type} (k : Nat) (v : α) (l : List (Nat × α)) :
    ∀ p ∈ insertA k v l, p = (k, v) ∨ p ∈ l := by
  intro p hp
  unfold insertA at hp
  split at hp
  · obtain ⟨q, hq, hpq⟩ := List.mem_map.mp hp
    by_cases h : q.1 = k
    · rw [if_pos h] at hpq
      exact Or.inl hpq.symm
    · rw [if_neg h] at hpq
      exact Or.inr (hpq ▸ hq)
  · rcases List.mem_append.mp hp with h | h
    · exact Or.inr h
    · exact Or.inl (by simpa using h)

/-- Looking up the key just written by `insertA`. -/
theorem lookupA_insertA {α : Type} (k : Nat) (v : α) (l : List (Nat × α)) :
    lookupA k (insertA k v l) = some v := by
  unfold insertA
  split
  case isTrue h =>
    induction l with
    | nil => simp at h
    | cons p r ih =>
      obtain ⟨pk, pv⟩ := p
      by_cases hp : pk = k
      · subst hp
        simp only [List.map_cons, if_true]
        simp [lookupA]
      · simp only [List.any_cons] at h
        have h' : (r.any fun q => decide (q.1 = k)) = true := by simpa [hp] using h
        simp only [List.map_cons, if_neg hp]
        simp only [lookupA]
        rw [if_neg hp]
        exact ih h'
  case isFalse h =>
    induction l with
    | nil => simp [lookupA]
    | cons p r ih =>
      obtain ⟨pk, pv⟩ := p
      simp only [List.any_cons, Bool.or_eq_true, not_or] at h
      have hp : ¬(pk = k) := by simpa using h.1
      simp only [List.cons_append, lookupA]
      rw [if_neg hp]
      exact ih (by simpa using h.2)

/-! ## Claim theorems -/

/-- C1, counterexample: for card 11 (no prior override), pointer-down at
the card rect (10, 20) followed immediately by pointer-end with zero
movement does NOT leave the Position override mapping unchanged — the
release commits the captured rect as an override. -/
theorem c1_zero_move_counterexample :
    ¬ ((handleEnd (handlePointerDown 11 ⟨0, 0⟩ ⟨10, 20⟩ (initState none))).positions
        = (initState none).positions) := by decide

/-- C1, amended: pointer-down followed immediately by pointer-end with
zero movement commits the card's captured on-screen position (the
pointer-down rect) as its Position override, and bumps the card's
z-index twice (once at pointer-down, once at the commit), ending at the
new maximum `maxZ + 2`; the did-drag flag seen by the subsequent click
handler is `false`, and the drag bookkeeping is cleared. -/
theorem c1_zero_move_commit (s : AppState) (id : Nat) (client rect : Pos) :
    (handleEnd (handlePointerDown id client rect s)).positions
        = insertA id rect s.positions
    ∧ lookupA id (handleEnd (handlePointerDown id client rect s)).zIndexes
        = some (s.maxZ + 2)
    ∧ (handleEnd (handlePointerDown id client rect s)).maxZ = s.maxZ + 2
    ∧ (handleEnd (handlePointerDown id client rect s)).didDrag = false
    ∧ (handleEnd (handlePointerDown id client rect s)).draggingId = none
    ∧ (handleEnd (handlePointerDown id client rect s)).dragPos = none := by
  refine ⟨?_, ?_, ?_, ?_, ?_, ?_⟩
  · show insertA id rect s.positions = insertA id rect s.positions
    rfl
  · show lookupA id (insertA id (s.maxZ + 1 + 1) (insertA id (s.maxZ + 1) s.zIndexes))
        = some (s.maxZ + 2)
    rw [lookupA_insertA]
    have h2 : s.maxZ + 1 + 1 = s.maxZ + 2 := by omega
    rw [h2]
  · show s.maxZ + 1 + 1 = s.maxZ + 2
    omega
  · rfl
  · rfl
  · rfl

/-- C2: once a drag move exceeds the 3 px threshold on either axis the
did-drag flag is set; pointer-end never touches the flag; and a click
arriving with the flag set leaves the whole state — in particular
`focusedId`, `focusOrigin` and `focusPhase` — unchanged except for
resetting the flag to `false`. -/
theorem c2_drag_threshold_click :
    (∀ (s : AppState) (client : Pos) (g : Gesture),
      s.draggingId ≠ none → s.dragStart = some g →
      (3 < |client.x - g.x| ∨ 3 < |client.y - g.y|) →
      (handleMove client s).didDrag = true)
    ∧ (∀ s : AppState, (handleEnd s).didDrag = s.didDrag)
    ∧ (∀ (s : AppState) (id : Nat) (rect : Pos), s.didDrag = true →
        handleClick id rect s = { s with didDrag := false }) := by
  refine ⟨?_, ?_, ?_⟩
  · intro s client g hne hg h
    simp only [handleMove, if_neg hne, hg]
    rcases h with h | h <;> simp [h]
  · intro s
    unfold handleEnd
    split
    · rfl
    · split <;> rfl
  · intro s id rect hd
    simp [handleClick, hd]

/-- C2 witness: a concrete drag of card 11 by 10 px sets the flag, and
the follow-up click only clears it. -/
theorem c2_drag_threshold_click_witness :
    (handleMove ⟨10, 0⟩ (handlePointerDown 11 ⟨0, 0⟩ ⟨10, 20⟩ (initState none))).didDrag = true
    ∧ handleClick 11 ⟨5, 6⟩ (handleMove ⟨10, 0⟩ (handlePointerDown 11 ⟨0, 0⟩ ⟨10, 20⟩ (initState none)))
      = { handleMove ⟨10, 0⟩ (handlePointerDown 11 ⟨0, 0⟩ ⟨10, 20⟩ (initState none)) with
          didDrag := false } :=
  ⟨c2_drag_threshold_click.1 _ ⟨10, 0⟩ ⟨0, 0, 10, 20⟩ (by decide) (by decide) (Or.inl (by decide)),
   c2_drag_threshold_click.2.2 _ 11 ⟨5, 6⟩
     (c2_drag_threshold_click.1 _ ⟨10, 0⟩ ⟨0, 0, 10, 20⟩ (by decide) (by decide) (Or.inl (by decide)))⟩

/-- C3: the focus lifecycle.  From a reachable idle state, a click on
card `a` (did-drag clear) enters `opening` with `focusedId = a` and the
rect captured as origin, and the scheduled animation-frame callback
flips the phase to `open`; clicking `a` again while `open` enters
`closing` immediately, and the scheduled 450 ms timer returns to `idle`
with `focusedId` and `focusOrigin` cleared; an overlay click while
`open` follows the same closing-then-idle path. -/
theorem c3_focus_lifecycle :
    (∀ (s : AppState) (a : Nat) (rect : Pos), Reachable s → s.phase = Phase.idle →
      s.didDrag = false →
      (handleClick a rect s).phase = Phase.opening
      ∧ (handleClick a rect s).focusedId = some a
      ∧ (handleClick a rect s).focusOrigin = some rect
      ∧ (rafFire (handleClick a rect s)).phase = Phase.opened)
    ∧ (∀ (s : AppState) (a : Nat) (rect : Pos), s.phase = Phase.opened →
      s.focusedId = some a → s.didDrag = false →
      (handleClick a rect s).phase = Phase.closing
      ∧ (timerFire (handleClick a rect s)).phase = Phase.idle
      ∧ (timerFire (handleClick a rect s)).focusedId = none
      ∧ (timerFire (handleClick a rect s)).focusOrigin = none)
    ∧ (∀ (s : AppState) (a : Nat), s.phase = Phase.opened → s.focusedId = some a →
      (closeFocus s).phase = Phase.closing
      ∧ (timerFire (closeFocus s)).phase = Phase.idle
      ∧ (timerFire (closeFocus s)).focusedId = none
      ∧ (timerFire (closeFocus s)).focusOrigin = none) := by
  refine ⟨?_, ?_, ?_⟩
  · intro s a rect hreach hidle hdrag
    have hclear := reachable_idle_clear hreach hidle
    simp [handleClick, hdrag, hclear.1, rafFire]
  · intro s a rect _ hfoc hdrag
    simp [handleClick, hdrag, hfoc, timerFire]
  · intro s a _ hfoc
    have hne : ¬(s.focusedId = none) := by simp [hfoc]
    simp [closeFocus, hne, timerFire]

/-- C3 witness: the concrete lifecycle of card 11 from the initial
state. -/
theorem c3_focus_lifecycle_witness :
    (handleClick 11 ⟨1, 2⟩ (initState none)).phase = Phase.opening
    ∧ (rafFire (handleClick 11 ⟨1, 2⟩ (initState none))).phase = Phase.opened
    ∧ (handleClick 11 ⟨1, 2⟩ (rafFire (handleClick 11 ⟨1, 2⟩ (initState none)))).phase
        = Phase.closing
    ∧ (timerFire (handleClick 11 ⟨1, 2⟩ (rafFire (handleClick 11 ⟨1, 2⟩ (initState none))))).focusedId
        = none
    ∧ (closeFocus (rafFire (handleClick 11 ⟨1, 2⟩ (initState none)))).phase = Phase.closing := by
  have h1 := (c3_focus_lifecycle.1 (initState none) 11 ⟨1, 2⟩
    (Reachable.init none) rfl rfl)
  have h2 := (c3_focus_lifecycle.2.1 (rafFire (handleClick 11 ⟨1, 2⟩ (initState none))) 11 ⟨1, 2⟩
    (by decide) (by decide) (by decide))
  have h3 := (c3_focus_lifecycle.2.2 (rafFire (handleClick 11 ⟨1, 2⟩ (initState none))) 11
    (by decide) (by decide))
  exact ⟨h1.1, h1.2.2.2, h2.1, h2.2.2.1, h3.1⟩

/-- C4: the layout store round-trips.  A successful `save` stores
`JSON.stringify` of the layout under the key and notifies the
subscribers, and a fresh process's load — `JSON.parse` of exactly that
stored string — yields the same layout state back. -/
theorem c4_store_roundtrip (s : StoreState) (d : LayoutData) :
    save true s d = Except.ok
      ({ s with stored := some (strOf (encodeLayout d)), data := some d }, s.listeners)
    ∧ loadData (some (strOf (encodeLayout d))) = some d := by
  constructor
  · rfl
  · show (load (some (strOf (encodeLayout d)))).bind decodeLayout = some d
    rw [show load (some (strOf (encodeLayout d))) = jparse (strOf (encodeLayout d)) from rfl,
      jparse_strOf (WFj_encodeLayout d)]
    exact decodeLayout_encodeLayout d

/-- C5: `save` is best-effort.  It never propagates an exception to its
caller; on a successful write it updates the stored string and the
in-memory data and notifies exactly the subscriber list (each once,
since the source keeps subscribers in a `Set`); on a failed write the
state is left untouched and nobody is notified. -/
theorem c5_save_best_effort (writeOk : Bool) (s : StoreState) (d : LayoutData) :
    (∃ r, save writeOk s d = Except.ok r)
    ∧ (writeOk = true →
        save writeOk s d = Except.ok
          ({ s with stored := some (strOf (encodeLayout d)), data := some d }, s.listeners))
    ∧ (writeOk = false → save writeOk s d = Except.ok (s, []))
    ∧ (s.listeners.Nodup → ∀ l ∈ s.listeners, s.listeners.count l = 1) := by
  refine ⟨?_, ?_, ?_, ?_⟩
  · cases writeOk
    · exact ⟨(s, []), rfl⟩
    · exact ⟨_, rfl⟩
  · intro h; subst h; rfl
  · intro h; subst h; rfl
  · intro hnd l hl
    exact List.count_eq_one_of_mem hnd hl

/-- C5 witness: a concrete successful and a concrete failed save on a
store with two subscribers. -/
theorem c5_save_best_effort_witness :
    save true ⟨none, none, true, [1, 2]⟩ ⟨[], [], 20⟩
      = Except.ok
        (⟨some (strOf (encodeLayout ⟨[], [], 20⟩)), some ⟨[], [], 20⟩, true, [1, 2]⟩, [1, 2])
    ∧ save false ⟨none, none, true, [1, 2]⟩ ⟨[], [], 20⟩
      = Except.ok (⟨none, none, true, [1, 2]⟩, [])
    ∧ ([1, 2] : List Nat).count 1 = 1 :=
  ⟨(c5_save_best_effort true ⟨none, none, true, [1, 2]⟩ ⟨[], [], 20⟩).2.1 rfl,
   (c5_save_best_effort false ⟨none, none, true, [1, 2]⟩ ⟨[], [], 20⟩).2.2.1 rfl,
   (c5_save_best_effort true ⟨none, none, true, [1, 2]⟩ ⟨[], [], 20⟩).2.2.2 (by decide) 1
     (by decide)⟩

/-- C6: the layout invariant is preserved by both layout-mutating
operations: the pointer-down z-bump (for a dataset card id) and the
pointer-end position commit (whose dragged id, when present, is a
dataset card id — the handlers are only ever attached to dataset
cards). -/
theorem c6_layout_invariant :
    (∀ (s : AppState) (id : Nat) (client rect : Pos),
      LayoutInv s → id ∈ fragIds → LayoutInv (handlePointerDown id client rect s))
    ∧ (∀ s : AppState,
      LayoutInv s → (∀ i, s.draggingId = some i → i ∈ fragIds) →
      LayoutInv (handleEnd s)) := by
  constructor
  · intro s id client rect hinv hid
    obtain ⟨hpos, hz⟩ := hinv
    refine ⟨hpos, ?_⟩
    intro q hq
    rcases insertA_mem id (s.maxZ + 1) s.zIndexes q hq with h | h
    · subst h
      exact ⟨hid, le_refl _⟩
    · obtain ⟨h1, h2⟩ := hz q h
      exact ⟨h1, by
        show q.2 ≤ s.maxZ + 1
        omega⟩
  · intro s hinv hdrag
    obtain ⟨hpos, hz⟩ := hinv
    unfold handleEnd
    split
    · exact ⟨hpos, hz⟩
    · split
      case _ id p hdi hdp =>
        have hid : id ∈ fragIds := hdrag id hdi
        constructor
        · intro q hq
          rcases insertA_mem id p s.positions q hq with h | h
          · subst h
            exact hid
          · exact hpos q h
        · intro q hq
          rcases insertA_mem id (s.maxZ + 1) s.zIndexes q hq with h | h
          · subst h
            exact ⟨hid, le_refl _⟩
          · obtain ⟨h1, h2⟩ := hz q h
            exact ⟨h1, by
              show q.2 ≤ s.maxZ + 1
              omega⟩
      case _ =>
        exact ⟨hpos, hz⟩

/-- C6 witness: the invariant holds for the empty initial layout and is
carried through a concrete z-bump on card 11 and a pointer-end. -/
theorem c6_layout_invariant_witness :
    LayoutInv (handlePointerDown 11 ⟨0, 0⟩ ⟨10, 20⟩ (initState none))
    ∧ LayoutInv (handleEnd (initState none)) := by
  have hinv : LayoutInv (initState none) :=
    ⟨fun p hp => by simp [initState] at hp, fun q hq => by simp [initState] at hq⟩
  exact ⟨c6_layout_invariant.1 (initState none) 11 ⟨0, 0⟩ ⟨10, 20⟩ hinv (by decide),
    c6_layout_invariant.2 (initState none) hinv (fun i h => by simp [initState] at h)⟩

/-- C7: for any focused card in the `open` phase, the resolved style is
fixed at the viewport midpoint (top/left 50% with the centering
translate), rotation 0, media cards widened to 480px at scale 1 and
other cards at their own width scaled 1.5, z-index 1001 with the smooth
top/left/transform/width transition; 1001 lies strictly above the drag
layer 999 and above every dataset card z. -/
theorem c7_style_focused_open (zi : List (Nat × Int)) (origin : Pos) (dp : Option Pos)
    (isDragging : Bool) (cp : Option Pos) (item : Fragment) :
    getStyle ⟨zi, some origin, Phase.opened, dp⟩ item true isDragging cp
      = { position := some "fixed"
          top := some (CssV.str "50%")
          left := some (CssV.str "50%")
          right := some (CssV.str "auto")
          transform := if item.type = "media" then Transform.centered 0 1
            else Transform.centered 0 1.5
          zIndex := 1001
          width := some (if item.type = "media" then "480px" else item.width)
          transition := some transitionStr }
    ∧ (fragments.all (fun f => decide (f.z < 1001))) = true
    ∧ (999 : Int) < 1001 :=
  ⟨rfl, by decide, by decide⟩

/-- C8: for any card that is dragging (and not focused) with a live
drag position, the resolved style is fixed at the live coordinates,
rotation damped to 0.3 of the resting rotation, scale 1.02, z-index at
the drag layer 999 with no transition and a grabbing cursor; 999 lies
below the focus layer 1001 and above every dataset card z. -/
theorem c8_style_dragging (zi : List (Nat × Int)) (fo : Option Pos) (ph : Phase)
    (p : Pos) (cp : Option Pos) (item : Fragment) :
    getStyle ⟨zi, fo, ph, some p⟩ item false true cp
      = { position := some "fixed"
          top := some (CssV.num p.y)
          left := some (CssV.num p.x)
          right := some (CssV.str "auto")
          width := some item.width
          zIndex := 999
          transform := Transform.plain (item.rotate * 0.3) 1.02
          cursor := some "grabbing" }
    ∧ (fragments.all (fun f => decide (f.z < 999))) = true
    ∧ (999 : Int) < 1001 :=
  ⟨rfl, by decide, by decide⟩

/-- C9: the YouTube id extraction on the three representative inputs:
a `watch?v=` url, a `youtu.be` short link, and an unrelated url that
matches no known shape. -/
theorem c9_youtube_id :
    getYouTubeId "https://www.youtube.com/watch?v=EUo0ncJX19A" = some "EUo0ncJX19A"
    ∧ getYouTubeId "https://youtu.be/abc123" = some "abc123"
    ∧ getYouTubeId "https://example.com/page" = none := by
  refine ⟨by decide, by decide, by decide⟩

/-- C10: clicking card `b` (did-drag clear) while a different card `a`
is focused in any non-idle phase switches focus directly to `b` —
`focusedId := b`, the click rect captured as the new origin, phase
`opening` — without passing through `idle`; a pending 450 ms closing
timer is not cancelled, and when it fires it clears `focusedId`,
`focusOrigin` and the phase. -/
theorem c10_focus_switch (s : AppState) (a b : Nat) (rect : Pos) :
    s.focusedId = some a → a ≠ b → s.phase ≠ Phase.idle → s.didDrag = false →
    (handleClick b rect s).focusedId = some b
    ∧ (handleClick b rect s).focusOrigin = some rect
    ∧ (handleClick b rect s).phase = Phase.opening
    ∧ (handleClick b rect s).pendingClose = s.pendingClose
    ∧ (0 < s.pendingClose →
        (timerFire (handleClick b rect s)).phase = Phase.idle
        ∧ (timerFire (handleClick b rect s)).focusedId = none
        ∧ (timerFire (handleClick b rect s)).focusOrigin = none) := by
  intro hfoc hab _ hdrag
  have hne : ¬(s.focusedId = some b) := by simp [hfoc, hab]
  have hck : handleClick b rect s
      = { s with
          focusOrigin := some rect
          focusedId := some b
          phase := Phase.opening
          pendingRaf := s.pendingRaf + 1 } := by
    simp [handleClick, hdrag, hne]
  rw [hck]
  refine ⟨rfl, rfl, rfl, rfl, ?_⟩
  intro hpc
  have hne0 : ¬(s.pendingClose = 0) := by omega
  simp [timerFire, hne0]

/-- C10 witness: with card 11 focused and closing (timer pending), a
click on card 18 switches focus to 18 while the timer later clears it. -/
theorem c10_focus_switch_witness :
    (handleClick 18 ⟨3, 4⟩ (handleClick 11 ⟨1, 2⟩ (rafFire (handleClick 11 ⟨1, 2⟩
        (initState none))))).focusedId = some 18
    ∧ (timerFire (handleClick 18 ⟨3, 4⟩ (handleClick 11 ⟨1, 2⟩ (rafFire (handleClick 11 ⟨1, 2⟩
        (initState none)))))).focusedId = none := by
  have h := c10_focus_switch (handleClick 11 ⟨1, 2⟩ (rafFire (handleClick 11 ⟨1, 2⟩
    (initState none)))) 11 18 ⟨3, 4⟩ (by decide) (by decide) (by decide) (by decide)
  exact ⟨h.1, (h.2.2.2.2 (by decide)).2.1⟩
